import Mathlib

/-!
Verification of the timestamp/interval arithmetic and hashing primitives of
`meos/src/general/pg_call.c` (MobilityDB's adaptation of PostgreSQL's
`timestamp.c`, `datetime.c` and `hashfn.c`).

Machine integers (`int32`, `int64`) are embedded as `Int` with explicit
two's-complement wrapping (`wrap32`, `wrap64`) at every operation where the
C code can overflow.  C's `/` and `%` on signed integers (truncation toward
zero) are `Int.tdiv` and `Int.tmod`.  Fallible C functions (`elog(ERROR)`)
return `Except String _`.
-/

namespace PgCall

/-- Two's-complement wrap-around of a 64-bit signed integer. -/
def wrap64 (x : Int) : Int :=
  (x + 9223372036854775808) % 18446744073709551616 - 9223372036854775808

/-- Two's-complement wrap-around of a 32-bit signed integer. -/
def wrap32 (x : Int) : Int :=
  (x + 2147483648) % 4294967296 - 2147483648

/-- `x` fits in a signed 64-bit integer. -/
def int64Range (x : Int) : Prop :=
  -9223372036854775808 ≤ x ∧ x ≤ 9223372036854775807

/-- `x` fits in a signed 32-bit integer. -/
def int32Range (x : Int) : Prop :=
  -2147483648 ≤ x ∧ x ≤ 2147483647

instance (x : Int) : Decidable (int64Range x) := by unfold int64Range; infer_instance

instance (x : Int) : Decidable (int32Range x) := by unfold int32Range; infer_instance

theorem wrap64_eq_self {x : Int} (h : int64Range x) : wrap64 x = x := by
  unfold int64Range at h
  unfold wrap64
  omega

theorem wrap32_eq_self {x : Int} (h : int32Range x) : wrap32 x = x := by
  unfold int32Range at h
  unfold wrap32
  omega

theorem wrap64_range (x : Int) : int64Range (wrap64 x) := by
  unfold int64Range wrap64
  constructor <;> omega

theorem wrap32_range (x : Int) : int32Range (wrap32 x) := by
  unfold int32Range wrap32
  constructor <;> omega

/-- `SAMESIGN(a,b)` from pg_call.c: `((a) < 0) == ((b) < 0)`. -/
def samesign (a b : Int) : Bool :=
  decide (a < 0) == decide (b < 0)

/-! ## Constants from PostgreSQL's `timestamp.h` / `datetime.h`
(included by pg_call.c; values are those of integer-timestamp builds). -/

def USECS_PER_DAY : Int := 86400000000

def MONTHS_PER_YEAR : Int := 12

def POSTGRES_EPOCH_JDATE : Int := 2451545

/-- `DT_NOBEGIN` : the `-infinity` sentinel (INT64_MIN). -/
def DT_NOBEGIN : Int := -9223372036854775808

/-- `DT_NOEND` : the `+infinity` sentinel (INT64_MAX). -/
def DT_NOEND : Int := 9223372036854775807

def MIN_TIMESTAMP : Int := -211813488000000000

def END_TIMESTAMP : Int := 9223371331200000000

/-- `TIMESTAMP_NOT_FINITE(j)`: `j` is one of the two sentinels. -/
def TIMESTAMP_NOT_FINITE (j : Int) : Bool :=
  decide (j = DT_NOBEGIN) || decide (j = DT_NOEND)

/-- `IS_VALID_TIMESTAMP(t)`: `MIN_TIMESTAMP <= t && t < END_TIMESTAMP`. -/
def IS_VALID_TIMESTAMP (t : Int) : Bool :=
  decide (MIN_TIMESTAMP ≤ t) && decide (t < END_TIMESTAMP)

/-! ## The `Interval` datatype (month, day : int32; time : int64). -/

structure Interval where
  month : Int
  day : Int
  time : Int
deriving DecidableEq, Repr

/-- The components of an `Interval` fit their C types
(`int32` month and day, `int64` time). -/
def Interval.valid (i : Interval) : Prop :=
  int32Range i.month ∧ int32Range i.day ∧ int64Range i.time

instance (i : Interval) : Decidable i.valid := by unfold Interval.valid; infer_instance

/-- `pg_interval_pl` from pg_call.c: component-wise addition with the
`SAMESIGN`-based overflow check copied from `int4pl` after each component. -/
def pg_interval_pl (span1 span2 : Interval) : Except String Interval :=
  let month := wrap32 (span1.month + span2.month)
  if samesign span1.month span2.month && !samesign month span1.month then
    .error "interval out of range"
  else
    let day := wrap32 (span1.day + span2.day)
    if samesign span1.day span2.day && !samesign day span1.day then
      .error "interval out of range"
    else
      let time := wrap64 (span1.time + span2.time)
      if samesign span1.time span2.time && !samesign time span1.time then
        .error "interval out of range"
      else
        .ok ⟨month, day, time⟩

/-- `pg_interval_justify_hours` from pg_call.c: move whole days of `time`
into `day` (`TMODULO` is C truncating division) and make the signs of
`day` and `time` agree. -/
def pg_interval_justify_hours (span : Interval) : Interval :=
  let wholeday := span.time.tdiv USECS_PER_DAY
  let time := span.time.tmod USECS_PER_DAY
  let day := wrap32 (span.day + wholeday)
  if day > 0 ∧ time < 0 then
    ⟨span.month, wrap32 (day - 1), time + USECS_PER_DAY⟩
  else if day < 0 ∧ time > 0 then
    ⟨span.month, wrap32 (day + 1), time - USECS_PER_DAY⟩
  else
    ⟨span.month, day, time⟩

/-- `pg_timestamp_mi` from pg_call.c: subtract two timestamps, rejecting
sentinels; the difference `dt1 - dt2` is a 64-bit subtraction. -/
def pg_timestamp_mi (dt1 dt2 : Int) : Except String Interval :=
  if TIMESTAMP_NOT_FINITE dt1 || TIMESTAMP_NOT_FINITE dt2 then
    .error "cannot subtract infinite timestamps"
  else
    .ok (pg_interval_justify_hours ⟨0, 0, wrap64 (dt1 - dt2)⟩)

/-- `interval_cmp_value` from pg_call.c: linearize an interval to
microseconds (months = 30 days, days = 24 hours) in a 128-bit value.
All 64-bit intermediates are wrapped as in C; the final 128-bit sum
`dayfraction + days * USECS_PER_DAY` never exceeds 2^127 (|days| after
wrapping is < 2^63 and USECS_PER_DAY < 2^37, so the product is < 2^100),
so it is computed exactly. -/
def interval_cmp_value (interval : Interval) : Int :=
  let dayfraction := interval.time.tmod USECS_PER_DAY
  let days := interval.time.tdiv USECS_PER_DAY
  let days := wrap64 (days + wrap64 (interval.month * 30))
  let days := wrap64 (days + interval.day)
  dayfraction + days * USECS_PER_DAY

/-- `int128_compare` from PostgreSQL's `common/int128.h`:
-1, 0 or 1 according to the order of the two values. -/
def int128_compare (x y : Int) : Int :=
  if x < y then -1 else if x > y then 1 else 0

/-- `pg_interval_cmp` from pg_call.c. -/
def pg_interval_cmp (interval1 interval2 : Interval) : Int :=
  int128_compare (interval_cmp_value interval1) (interval_cmp_value interval2)

/-! ## Calendar conversions

`pg_timestamp_pl_interval` relies on PostgreSQL's `timestamp2tm`,
`tm2timestamp`, `date2j`, `j2date`, `day_tab` and `isleap`
(`datetime.c` / `timestamp.c` / `datetime.h`), which are not part of this
repository's sources.  They are modelled below from the spec. -/

/-- Modelled from the spec: leap-year test `isleap(y)` used by the
month-clamping rule (`datetime.h` is not part of src/).  C `%` on a
possibly negative year truncates toward zero, hence `Int.tmod`. -/
def isleap (y : Int) : Bool :=
  decide (y.tmod 4 = 0) && (decide (y.tmod 100 ≠ 0) || decide (y.tmod 400 = 0))

/-- Modelled from the spec: `day_tab[leap]`, the number of days of each
month, used to clamp a day-of-month to "the last valid day of the
resulting month" (`datetime.c` is not part of src/). -/
def day_tab (leap : Bool) : List Int :=
  if leap then [31, 29, 31, 30, 31, 30, 31, 31, 30, 31, 30, 31]
  else [31, 28, 31, 30, 31, 30, 31, 31, 30, 31, 30, 31]

/-- `day_tab[isleap(year)][mon - 1]` for a month number `mon` in 1..12. -/
def daysInMonth (leap : Bool) (mon : Int) : Int :=
  (day_tab leap).getD (mon - 1).toNat 0

/-- Modelled from the spec: `date2j(y, m, d)`, the Gregorian date to
Julian-day-number conversion of `datetime.c` (not part of src/), with C's
truncating integer division. -/
def date2j (y m d : Int) : Int :=
  let y := if m > 2 then y + 4800 else y + 4799
  let m := if m > 2 then m + 1 else m + 13
  let century := y.tdiv 100
  let julian := y * 365 - 32167
  let julian := julian + (y.tdiv 4 - century + century.tdiv 4)
  julian + ((7834 * m).tdiv 256 + d)

/-- Modelled from the spec: `j2date(jd)`, the Julian-day-number to
Gregorian date conversion of `datetime.c` (not part of src/).  The C
function computes in `unsigned int`; the conversion of the `int` argument
and the two sums that can exceed 32 bits are reduced `% 2^32`. -/
def j2date (jd : Int) : Int × Int × Int :=
  let julian : Nat := (jd.emod 4294967296).toNat
  let julian := (julian + 32044) % 4294967296
  let quad := julian / 146097
  let extra := (julian - quad * 146097) * 4 + 3
  let julian := (julian + 60 + quad * 3 + extra / 146097) % 4294967296
  let quad2 := julian / 1461
  let julian := julian - quad2 * 1461
  let y := julian * 4 / 1461
  let julian := (if y ≠ 0 then (julian + 305) % 365 else (julian + 306) % 366) + 123
  let y := y + quad2 * 4
  let year := (Int.ofNat y) - 4800
  let quad3 := julian * 2141 / 65536
  let day := julian - 7834 * quad3 / 256
  let month := (quad3 + 10) % 12 + 1
  (year, Int.ofNat month, Int.ofNat day)

/-- The calendar fields of a `struct pg_tm` that
`pg_timestamp_pl_interval` uses: year, month, day-of-month, and the
time-of-day in microseconds (standing for the hour / minute / second /
fractional-second fields, which round-trip unchanged). -/
structure pg_tm where
  tm_year : Int
  tm_mon : Int
  tm_mday : Int
  tod : Int
deriving DecidableEq, Repr

/-- Modelled from the spec: `timestamp2tm` (`timestamp.c`, not part of
src/) splits a timestamp into a Julian day number (floor division by
`USECS_PER_DAY`, obtained by truncating division plus a negative-remainder
fix-up, as in the C code) and a nonnegative time of day, then converts the
day number to a calendar date; it fails when the day number leaves
0..INT32_MAX. -/
def timestamp2tm (dt : Int) : Option pg_tm :=
  let date := dt.tdiv USECS_PER_DAY
  let time := dt.tmod USECS_PER_DAY
  let date := if time < 0 then date - 1 else date
  let time := if time < 0 then time + USECS_PER_DAY else time
  let date := date + POSTGRES_EPOCH_JDATE
  if date < 0 ∨ date > 2147483647 then none
  else
    let (year, mon, mday) := j2date date
    some ⟨year, mon, mday, time⟩

/-- `IS_VALID_JULIAN(y,m,d)` from `datetime.h`. -/
def IS_VALID_JULIAN (y m d : Int) : Bool :=
  (decide (y > -4713) || (decide (y = -4713) && decide (m ≥ 11) && decide (d ≥ 24)))
    && decide (y < 5874898)

/-- Modelled from the spec: `tm2timestamp` (`timestamp.c`, not part of
src/) rebuilds a timestamp from calendar fields via `date2j`; it fails
when the date is outside the supported Julian range or the rebuilt
timestamp is outside the valid timestamp range (the C code detects the
intermediate 64-bit overflows explicitly; here the value is computed
exactly and checked once). -/
def tm2timestamp (tm : pg_tm) : Option Int :=
  if ¬ IS_VALID_JULIAN tm.tm_year tm.tm_mon tm.tm_mday then none
  else
    let date := date2j tm.tm_year tm.tm_mon tm.tm_mday - POSTGRES_EPOCH_JDATE
    let result := date * USECS_PER_DAY + tm.tod
    if IS_VALID_TIMESTAMP result then some result else none

/-! ## `pg_timestamp_pl_interval` and its three stages -/

/-- The month block of `pg_timestamp_pl_interval`: convert to calendar
fields, add `span->month` to the month with year carry (C truncating
division), clamp the day-of-month to the last day of the resulting month,
and convert back; errors are `timestamp out of range`. -/
def interval_pl_months (span : Interval) (timestamp : Int) : Except String Int :=
  if span.month ≠ 0 then
    match timestamp2tm timestamp with
    | none => .error "timestamp out of range"
    | some tm =>
      let mon := wrap32 (tm.tm_mon + span.month)
      let year :=
        if mon > MONTHS_PER_YEAR then wrap32 (tm.tm_year + (mon - 1).tdiv MONTHS_PER_YEAR)
        else if mon < 1 then wrap32 (tm.tm_year + (mon.tdiv MONTHS_PER_YEAR - 1))
        else tm.tm_year
      let mon :=
        if mon > MONTHS_PER_YEAR then (mon - 1).tmod MONTHS_PER_YEAR + 1
        else if mon < 1 then mon.tmod MONTHS_PER_YEAR + MONTHS_PER_YEAR
        else mon
      let mday :=
        if tm.tm_mday > daysInMonth (isleap year) mon then daysInMonth (isleap year) mon
        else tm.tm_mday
      match tm2timestamp ⟨year, mon, mday, tm.tod⟩ with
      | none => .error "timestamp out of range"
      | some t => .ok t
  else .ok timestamp

/-- The day block of `pg_timestamp_pl_interval`: convert to calendar
fields, add `span->day` to the Julian day number (a 32-bit `int` sum) and
convert back; errors are `timestamp out of range`. -/
def interval_pl_days (span : Interval) (timestamp : Int) : Except String Int :=
  if span.day ≠ 0 then
    match timestamp2tm timestamp with
    | none => .error "timestamp out of range"
    | some tm =>
      let julian := wrap32 (date2j tm.tm_year tm.tm_mon tm.tm_mday + span.day)
      let (year, mon, mday) := j2date julian
      match tm2timestamp ⟨year, mon, mday, tm.tod⟩ with
      | none => .error "timestamp out of range"
      | some t => .ok t
  else .ok timestamp

/-- The final microsecond block of `pg_timestamp_pl_interval`:
`timestamp += span->time` is a wrapping 64-bit addition, followed by the
`IS_VALID_TIMESTAMP` range check. -/
def interval_pl_time (span : Interval) (timestamp : Int) : Except String Int :=
  let t := wrap64 (timestamp + span.time)
  if IS_VALID_TIMESTAMP t then .ok t else .error "timestamp out of range"

/-- `pg_timestamp_pl_interval` from pg_call.c: sentinels pass through
untouched; otherwise the month block, then the day block, then the
microsecond addition with its range check, in the statement order of the C
function, each earlier `elog(ERROR)` aborting the rest. -/
def pg_timestamp_pl_interval (timestamp : Int) (span : Interval) : Except String Int :=
  if TIMESTAMP_NOT_FINITE timestamp then
    .ok timestamp
  else
    match interval_pl_months span timestamp with
    | .error e => .error e
    | .ok ts1 =>
      match interval_pl_days span ts1 with
      | .error e => .error e
      | .ok ts2 => interval_pl_time span ts2

/-! ## `AdjustTimestampForTypmod` -/

def MAX_TIMESTAMP_PRECISION : Int := 6

/-- The `TimestampScales` table of `AdjustTimestampForTypmodError`. -/
def TimestampScales (typmod : Int) : Int :=
  [1000000, 100000, 10000, 1000, 100, 10, 1].getD typmod.toNat 0

/-- The `TimestampOffsets` table of `AdjustTimestampForTypmodError`. -/
def TimestampOffsets (typmod : Int) : Int :=
  [500000, 50000, 5000, 500, 50, 5, 0].getD typmod.toNat 0

/-- `AdjustTimestampForTypmodError` / `AdjustTimestampForTypmod` from
pg_call.c: round a finite timestamp to the precision given by `typmod`.
The sum `*time + TimestampOffsets[typmod]` is a wrapping 64-bit addition;
the quotient-times-scale product has magnitude at most that of the wrapped
sum, and its negation cannot reach `-2^63` because no scale larger than 1
divides `2^63`, so neither of those operations can overflow (`-*time`
cannot overflow either, `INT64_MIN` being the excluded `DT_NOBEGIN`
sentinel). -/
def AdjustTimestampForTypmod (time typmod : Int) : Except String Int :=
  if ¬ TIMESTAMP_NOT_FINITE time ∧ typmod ≠ -1 ∧ typmod ≠ MAX_TIMESTAMP_PRECISION then
    if typmod < 0 ∨ typmod > MAX_TIMESTAMP_PRECISION then
      .error "timestamp precision must be between 0 and 6"
    else if time ≥ 0 then
      .ok ((wrap64 (time + TimestampOffsets typmod)).tdiv (TimestampScales typmod)
        * TimestampScales typmod)
    else
      .ok (-((wrap64 (-time + TimestampOffsets typmod)).tdiv (TimestampScales typmod)
        * TimestampScales typmod))
  else
    .ok time

/-! ## Hash functions (`hashfn.c` material compiled into pg_call.c) -/

/-- Unsigned 32-bit truncation. -/
def u32 (x : Nat) : Nat := x % 4294967296

/-- Unsigned 32-bit subtraction `a - b` (for `a b < 2^32`). -/
def u32sub (a b : Nat) : Nat := (a + 4294967296 - b % 4294967296) % 4294967296

/-- `rot(x,k)` from pg_call.c: rotate a `uint32` left by `k` bits. -/
def u32rot (x k : Nat) : Nat := ((x <<< k) % 4294967296) ||| (x >>> (32 - k))

/-- The `final(a,b,c)` mixing macro from pg_call.c. -/
def jenkins_final (a b c : Nat) : Nat × Nat × Nat :=
  let c := c ^^^ b; let c := u32sub c (u32rot b 14)
  let a := a ^^^ c; let a := u32sub a (u32rot c 11)
  let b := b ^^^ a; let b := u32sub b (u32rot a 25)
  let c := c ^^^ b; let c := u32sub c (u32rot b 16)
  let a := a ^^^ c; let a := u32sub a (u32rot c 4)
  let b := b ^^^ a; let b := u32sub b (u32rot a 14)
  let c := c ^^^ b; let c := u32sub c (u32rot b 24)
  (a, b, c)

/-- The `mix(a,b,c)` macro from pg_call.c. -/
def jenkins_mix (a b c : Nat) : Nat × Nat × Nat :=
  let a := u32sub a c; let a := a ^^^ u32rot c 4; let c := u32 (c + b)
  let b := u32sub b a; let b := b ^^^ u32rot a 6; let a := u32 (a + c)
  let c := u32sub c b; let c := c ^^^ u32rot b 8; let b := u32 (b + a)
  let a := u32sub a c; let a := a ^^^ u32rot c 16; let c := u32 (c + b)
  let b := u32sub b a; let b := b ^^^ u32rot a 19; let a := u32 (a + c)
  let c := u32sub c b; let c := c ^^^ u32rot b 4; let b := u32 (b + a)
  (a, b, c)

/-- `hash_bytes_uint32(k)` from pg_call.c (identical to `hash_uint32` of
PostgreSQL's `hashfn.c`): hash a 32-bit value to a 32-bit value.
`0x9e3779b9 = 2654435769`. -/
def hash_bytes_uint32 (k : Nat) : Nat :=
  let a := u32 (2654435769 + 4 + 3923095)
  let b := a
  let c := a
  let a := u32 (a + k)
  (jenkins_final a b c).2.2

/-- `hash_bytes_uint32_extended(k, seed)` from pg_call.c (identical to
`hash_uint32_extended` of PostgreSQL's `hashfn.c`): hash a 32-bit value to
a 64-bit value with a seed. -/
def hash_bytes_uint32_extended (k seed : Nat) : Nat :=
  let a := u32 (2654435769 + 4 + 3923095)
  let b := a
  let c := a
  let (a, b, c) :=
    if seed ≠ 0 then jenkins_mix (u32 (a + u32 (seed >>> 32))) (u32 (b + u32 seed)) c
    else (a, b, c)
  let a := u32 (a + k)
  let (_, b, c) := jenkins_final a b c
  (b <<< 32) ||| c

/-- `pg_hashint8` from pg_call.c: fold the two halves of the `int64` value
into one `uint32` (xoring the high half, or its complement when the value
is negative, into the low half) and hash that with the 32-bit hash.
`(uint32) val` is the low 32 bits; `(uint32)(val >> 32)` is the low 32
bits of the arithmetically shifted value, i.e. of the floor quotient by
`2^32`. -/
def pg_hashint8 (val : Int) : Nat :=
  let lohalf := (val.emod 4294967296).toNat
  let hihalf := ((val.ediv 4294967296).emod 4294967296).toNat
  let lohalf := if val ≥ 0 then lohalf ^^^ hihalf else lohalf ^^^ (hihalf ^^^ 4294967295)
  hash_bytes_uint32 lohalf

/-- `pg_hashint8extended` from pg_call.c: same folding, seeded variant. -/
def pg_hashint8extended (val : Int) (seed : Nat) : Nat :=
  let lohalf := (val.emod 4294967296).toNat
  let hihalf := ((val.ediv 4294967296).emod 4294967296).toNat
  let lohalf := if val ≥ 0 then lohalf ^^^ hihalf else lohalf ^^^ (hihalf ^^^ 4294967295)
  hash_bytes_uint32_extended lohalf seed

/-! ## IEEE binary64 bit patterns and `pg_hashfloat8`

A `float8` is embedded as its 64-bit pattern (a `Nat` below `2^64`):
sign bit, 11 exponent bits, 52 fraction bits. -/

def f8sign (b : Nat) : Nat := b / 2 ^ 63

def f8exp (b : Nat) : Nat := b / 2 ^ 52 % 2048

def f8frac (b : Nat) : Nat := b % 2 ^ 52

/-- `isnan(key)`: all exponent bits set and a nonzero fraction. -/
def float8_isnan (b : Nat) : Bool :=
  decide (f8exp b = 2047) && decide (f8frac b ≠ 0)

/-- The magnitude encoded by exponent field `e` and fraction field `f`,
in units of `2^(-1074)` (the least positive subnormal): subnormals are
`f`, normals `(2^52 + f) * 2^(e - 1)`. -/
def f8magOf (e f : Nat) : Nat :=
  if e = 0 then f else (2 ^ 52 + f) * 2 ^ (e - 1)

/-- The magnitude of a finite binary64 bit pattern, in units of
`2^(-1074)`. -/
def f8mag (b : Nat) : Nat :=
  f8magOf (f8exp b) (f8frac b)

/-- The IEEE value of a binary64 bit pattern: a finite value is the signed
magnitude in units of `2^(-1074)`. -/
inductive F8Val where
  | finite (n : Int)
  | posInf
  | negInf
  | nan
deriving DecidableEq

def f8val (b : Nat) : F8Val :=
  if f8exp b = 2047 then
    if f8frac b = 0 then (if f8sign b = 1 then .negInf else .posInf) else .nan
  else
    .finite ((if f8sign b = 1 then -1 else 1) * (f8mag b : Int))

/-- IEEE `==` on two bit patterns: both non-NaN with the same value
(`-0.0 == 0.0` holds since both have value `finite 0`; a NaN equals
nothing). -/
def float8_value_eq (a b : Nat) : Prop :=
  float8_isnan a = false ∧ float8_isnan b = false ∧ f8val a = f8val b

instance (a b : Nat) : Decidable (float8_value_eq a b) := by
  unfold float8_value_eq
  infer_instance

/-- Modelled from the spec: `get_float8_nan()` returns the one canonical
NaN (the quiet NaN pattern `0x7FF8000000000000`); its definition
(`utils/float.h`) is not part of src/. -/
def get_float8_nan : Nat := 0x7FF8000000000000

/-- `pg_hashfloat8` from pg_call.c, parameterized by `hash_any`
(PostgreSQL's byte hash, not part of src/; modelled from the spec as an
arbitrary function of the 8-byte pattern): `key == (float8) 0` returns
hash `0` directly, NaNs are replaced by the canonical NaN before hashing,
and any other value hashes its own bit pattern. -/
def pg_hashfloat8 (hashAny : Nat → Nat) (key : Nat) : Nat :=
  if f8val key = .finite 0 then 0
  else if float8_isnan key then hashAny get_float8_nan
  else hashAny key

/-! ## Helper lemmas -/

deriving instance DecidableEq for Except

theorem tmod_bounds (a : Int) {b : Int} (hb : 0 < b) : -b < a.tmod b ∧ a.tmod b < b := by
  rcases Int.le_or_lt 0 a with ha | ha
  · exact ⟨by have := Int.tmod_nonneg b ha; omega, Int.tmod_lt_of_pos a hb⟩
  · have hodd : (-a).tmod b = -(a.tmod b) := by
      rw [Int.tmod_def, Int.tmod_def, Int.neg_tdiv]; ring
    have h1 := Int.tmod_nonneg b (by omega : (0:Int) ≤ -a)
    have h2 := Int.tmod_lt_of_pos (-a) hb
    rw [hodd] at h1 h2
    omega

theorem tdiv_tmod_split (a : Int) {b : Int} (hb : 0 < b) :
    b * a.tdiv b + a.tmod b = a ∧ -b < a.tmod b ∧ a.tmod b < b :=
  ⟨Int.tdiv_add_tmod a b, tmod_bounds a hb⟩

/-- Behaviour of `pg_interval_justify_hours` on the intervals
`pg_timestamp_mi` builds: month and day zero, an arbitrary 64-bit time. -/
theorem justify_hours_zero_spec (t : Int) (ht : int64Range t) :
    (pg_interval_justify_hours ⟨0, 0, t⟩).month = 0 ∧
    (pg_interval_justify_hours ⟨0, 0, t⟩).day * USECS_PER_DAY +
      (pg_interval_justify_hours ⟨0, 0, t⟩).time = t ∧
    -USECS_PER_DAY < (pg_interval_justify_hours ⟨0, 0, t⟩).time ∧
    (pg_interval_justify_hours ⟨0, 0, t⟩).time < USECS_PER_DAY ∧
    ¬((pg_interval_justify_hours ⟨0, 0, t⟩).day > 0 ∧
      (pg_interval_justify_hours ⟨0, 0, t⟩).time < 0) ∧
    ¬((pg_interval_justify_hours ⟨0, 0, t⟩).day < 0 ∧
      (pg_interval_justify_hours ⟨0, 0, t⟩).time > 0) := by
  obtain ⟨hq, hr1, hr2⟩ := tdiv_tmod_split t (show (0:Int) < USECS_PER_DAY by decide)
  unfold int64Range at ht
  unfold pg_interval_justify_hours
  unfold USECS_PER_DAY at hq hr1 hr2 ⊢
  set q := t.tdiv 86400000000 with hqdef
  set r := t.tmod 86400000000 with hrdef
  have hqb : -107374183 ≤ q ∧ q ≤ 107374183 := by constructor <;> nlinarith
  simp only [wrap32]
  split_ifs <;> simp only [] <;> refine ⟨by trivial, ?_, ?_, ?_, ?_, ?_⟩ <;> omega

end PgCall

namespace PgCall

/-- C1: adding `Interval{month 0, day 0, time INT64_MAX}` to the largest
valid timestamp makes the final `timestamp += span->time` wrap to
`-705654775810`, which passes `IS_VALID_TIMESTAMP`, so
`pg_timestamp_pl_interval` silently returns a wrapped value instead of the
mathematical calendar sum (which is out of range): overflow of the final
microsecond addition is not always detected. -/
theorem timestamp_pl_interval_silent_wrap :
    pg_timestamp_pl_interval 9223371331199999999 ⟨0, 0, 9223372036854775807⟩ =
      .ok (-705654775810) ∧
    IS_VALID_TIMESTAMP (-705654775810) = true ∧
    (9223371331199999999 + 9223372036854775807 : Int) ≠ -705654775810 := by
  refine ⟨by decide, by decide, by decide⟩

/-- C5: a sentinel timestamp (`-infinity` or `+infinity`) propagates
through `pg_timestamp_pl_interval` unchanged, with no error, whatever the
interval is. -/
theorem timestamp_pl_interval_sentinel (span : Interval) (t : Int)
    (h : t = DT_NOBEGIN ∨ t = DT_NOEND) :
    pg_timestamp_pl_interval t span = .ok t := by
  have hfin : TIMESTAMP_NOT_FINITE t = true := by
    unfold TIMESTAMP_NOT_FINITE
    rcases h with h | h <;> simp [h]
  unfold pg_timestamp_pl_interval
  rw [hfin]
  rfl

theorem timestamp_pl_interval_sentinel_witness :
    ((DT_NOEND = DT_NOBEGIN ∨ DT_NOEND = DT_NOEND) ∧
      pg_timestamp_pl_interval DT_NOEND ⟨1, 2, 3⟩ = .ok DT_NOEND) ∧
    ((DT_NOBEGIN = DT_NOBEGIN ∨ DT_NOBEGIN = DT_NOEND) ∧
      pg_timestamp_pl_interval DT_NOBEGIN ⟨-5, 7, -9⟩ = .ok DT_NOBEGIN) :=
  ⟨⟨Or.inr rfl, timestamp_pl_interval_sentinel ⟨1, 2, 3⟩ DT_NOEND (Or.inr rfl)⟩,
   ⟨Or.inl rfl, timestamp_pl_interval_sentinel ⟨-5, 7, -9⟩ DT_NOBEGIN (Or.inl rfl)⟩⟩

/-- C6: `pg_timestamp_mi` fails, with the error
`cannot subtract infinite timestamps`, exactly when one of the inputs is a
sentinel; on finite inputs it returns an interval and raises no error. -/
theorem timestamp_mi_error_iff (dt1 dt2 : Int) :
    (pg_timestamp_mi dt1 dt2 = .error "cannot subtract infinite timestamps" ↔
      (TIMESTAMP_NOT_FINITE dt1 = true ∨ TIMESTAMP_NOT_FINITE dt2 = true)) ∧
    ((pg_timestamp_mi dt1 dt2).isOk = true ↔
      ¬(TIMESTAMP_NOT_FINITE dt1 = true ∨ TIMESTAMP_NOT_FINITE dt2 = true)) := by
  unfold pg_timestamp_mi
  by_cases h1 : TIMESTAMP_NOT_FINITE dt1 = true <;>
    by_cases h2 : TIMESTAMP_NOT_FINITE dt2 = true <;>
      simp [h1, h2, Except.isOk, Except.toBool]

/-- C3 counterexample: on the finite (non-sentinel) inputs
`dt1 = 2^63 - 2` and `dt2 = -(2^63) + 1`, the 64-bit subtraction
`dt1 - dt2` wraps, so the returned interval totals `-3` microseconds, not
the mathematical difference `2^64 - 3`. -/
theorem timestamp_mi_wraps :
    TIMESTAMP_NOT_FINITE 9223372036854775806 = false ∧
    TIMESTAMP_NOT_FINITE (-9223372036854775807) = false ∧
    pg_timestamp_mi 9223372036854775806 (-9223372036854775807) =
      .ok ⟨0, 0, -3⟩ ∧
    (9223372036854775806 - (-9223372036854775807) : Int) ≠
      0 * 86400000000 + -3 := by
  refine ⟨by decide, by decide, by decide, by decide⟩

/-- C3 (amended): for finite timestamps, `pg_timestamp_mi` returns an
interval with `month = 0` whose total `day * USECS_PER_DAY + time` equals
the wrapping 64-bit difference `dt1 - dt2` (hence the mathematical
difference whenever that fits in `int64`), normalized so that the
microseconds component is strictly smaller than one day in magnitude and
never of a sign opposite to the day component. -/
theorem timestamp_mi_spec (dt1 dt2 : Int)
    (h1 : TIMESTAMP_NOT_FINITE dt1 = false)
    (h2 : TIMESTAMP_NOT_FINITE dt2 = false) :
    ∃ r, pg_timestamp_mi dt1 dt2 = .ok r ∧
      r.month = 0 ∧
      r.day * USECS_PER_DAY + r.time = wrap64 (dt1 - dt2) ∧
      -USECS_PER_DAY < r.time ∧ r.time < USECS_PER_DAY ∧
      ¬(r.day > 0 ∧ r.time < 0) ∧ ¬(r.day < 0 ∧ r.time > 0) := by
  refine ⟨pg_interval_justify_hours ⟨0, 0, wrap64 (dt1 - dt2)⟩, ?_, ?_⟩
  · unfold pg_timestamp_mi
    rw [h1, h2]
    rfl
  · have hr := wrap64_range (dt1 - dt2)
    have := justify_hours_zero_spec (wrap64 (dt1 - dt2)) hr
    tauto

/-- Characterization of the `SAMESIGN`-based overflow check of
`pg_interval_pl` for a 32-bit component: the check fires exactly when the
mathematical sum leaves the `int32` range. -/
theorem samesign_check32 (a b : Int) (ha : int32Range a) (hb : int32Range b) :
    (samesign a b && !samesign (wrap32 (a + b)) a) = true ↔ ¬ int32Range (a + b) := by
  unfold int32Range at *
  unfold samesign wrap32
  simp only [Bool.and_eq_true, Bool.not_eq_eq_eq_not, Bool.not_true, beq_iff_eq,
    beq_eq_false_iff_ne, ne_eq, decide_eq_decide, decide_eq_false_iff_not, not_and, not_le,
    ← decide_not, decide_eq_true_eq]
  constructor
  · intro h
    omega
  · intro h
    omega

/-- Characterization of the `SAMESIGN`-based overflow check of
`pg_interval_pl` for the 64-bit component. -/
theorem samesign_check64 (a b : Int) (ha : int64Range a) (hb : int64Range b) :
    (samesign a b && !samesign (wrap64 (a + b)) a) = true ↔ ¬ int64Range (a + b) := by
  unfold int64Range at *
  unfold samesign wrap64
  simp only [Bool.and_eq_true, Bool.not_eq_eq_eq_not, Bool.not_true, beq_iff_eq,
    beq_eq_false_iff_ne, ne_eq, decide_eq_decide, decide_eq_false_iff_not, not_and, not_le,
    ← decide_not, decide_eq_true_eq]
  constructor
  · intro h
    omega
  · intro h
    omega

/-- C7: component-wise interval addition returns the exact component sums
when every sum fits its C type, and reports `interval out of range`
exactly when some component overflows. -/
theorem interval_pl_spec (s1 s2 : Interval) (h1 : s1.valid) (h2 : s2.valid) :
    pg_interval_pl s1 s2 =
      if int32Range (s1.month + s2.month) ∧ int32Range (s1.day + s2.day) ∧
          int64Range (s1.time + s2.time) then
        .ok ⟨s1.month + s2.month, s1.day + s2.day, s1.time + s2.time⟩
      else .error "interval out of range" := by
  obtain ⟨hm1, hd1, ht1⟩ := h1
  obtain ⟨hm2, hd2, ht2⟩ := h2
  have cm := samesign_check32 s1.month s2.month hm1 hm2
  have cd := samesign_check32 s1.day s2.day hd1 hd2
  have ct := samesign_check64 s1.time s2.time ht1 ht2
  unfold pg_interval_pl
  by_cases p1 : int32Range (s1.month + s2.month)
  · have b1 : (samesign s1.month s2.month &&
        !samesign (wrap32 (s1.month + s2.month)) s1.month) = false := by
      rw [← Bool.not_eq_true]
      exact fun h => (cm.mp h) p1
    by_cases p2 : int32Range (s1.day + s2.day)
    · have b2 : (samesign s1.day s2.day &&
          !samesign (wrap32 (s1.day + s2.day)) s1.day) = false := by
        rw [← Bool.not_eq_true]
        exact fun h => (cd.mp h) p2
      by_cases p3 : int64Range (s1.time + s2.time)
      · have b3 : (samesign s1.time s2.time &&
            !samesign (wrap64 (s1.time + s2.time)) s1.time) = false := by
          rw [← Bool.not_eq_true]
          exact fun h => (ct.mp h) p3
        have hall : int32Range (s1.month + s2.month) ∧ int32Range (s1.day + s2.day) ∧
            int64Range (s1.time + s2.time) := ⟨p1, p2, p3⟩
        simp only [b1, b2, b3, Bool.false_eq_true, if_false]
        simp only [wrap32_eq_self p1, wrap32_eq_self p2, wrap64_eq_self p3]
        rw [if_pos hall]
      · have b3 : (samesign s1.time s2.time &&
            !samesign (wrap64 (s1.time + s2.time)) s1.time) = true := ct.mpr p3
        have hno : ¬(int32Range (s1.month + s2.month) ∧ int32Range (s1.day + s2.day) ∧
            int64Range (s1.time + s2.time)) := fun h => p3 h.2.2
        simp only [b1, b2, b3, Bool.false_eq_true, if_false, if_true]
        rw [if_neg hno]
    · have b2 : (samesign s1.day s2.day &&
          !samesign (wrap32 (s1.day + s2.day)) s1.day) = true := cd.mpr p2
      have hno : ¬(int32Range (s1.month + s2.month) ∧ int32Range (s1.day + s2.day) ∧
          int64Range (s1.time + s2.time)) := fun h => p2 h.2.1
      simp only [b1, b2, Bool.false_eq_true, if_false, if_true]
      rw [if_neg hno]
  · have b1 : (samesign s1.month s2.month &&
        !samesign (wrap32 (s1.month + s2.month)) s1.month) = true := cm.mpr p1
    have hno : ¬(int32Range (s1.month + s2.month) ∧ int32Range (s1.day + s2.day) ∧
        int64Range (s1.time + s2.time)) := fun h => p1 h.1
    simp only [b1, if_true]
    rw [if_neg hno]

theorem interval_pl_spec_witness :
    (Interval.valid ⟨2147483647, 1, 2⟩ ∧ Interval.valid ⟨1, 1, 2⟩) ∧
    pg_interval_pl ⟨2147483647, 1, 2⟩ ⟨1, 1, 2⟩ =
      (if int32Range (2147483647 + 1) ∧ int32Range (1 + 1) ∧ int64Range (2 + 2) then
        .ok ⟨2147483647 + 1, 1 + 1, 2 + 2⟩
      else .error "interval out of range") :=
  ⟨⟨by decide, by decide⟩,
    interval_pl_spec ⟨2147483647, 1, 2⟩ ⟨1, 1, 2⟩ (by decide) (by decide)⟩

/-- C2 counterexample: the claim says every step, the final microsecond
addition included, raises `timestamp out of range` on overflow.  Adding
`time = -INT64_MAX` to the smallest valid timestamp makes the mathematical
sum overflow `int64` (it is smaller than `INT64_MIN`), yet the wrapped
64-bit sum lands back inside the valid range, so no error is raised and a
wrapped value is returned. -/
theorem timestamp_pl_interval_us_step_no_error :
    pg_timestamp_pl_interval (-211813488000000000) ⟨0, 0, -9223372036854775807⟩ =
      .ok 9011558548854775809 ∧
    ((-211813488000000000) + (-9223372036854775807) : Int) < -9223372036854775808 ∧
    ((-211813488000000000) + (-9223372036854775807) : Int) ≠ 9011558548854775809 := by
  refine ⟨by decide, by decide, by decide⟩

/-- C2 (amended): on a finite timestamp, `pg_timestamp_pl_interval` is the
sequential composition of the months stage (calendar arithmetic with the
day-of-month clamped to the last day of the resulting month), then the
days stage (Julian-day arithmetic), then the microseconds stage; the only
error any stage raises is `timestamp out of range`, the months and days
stages raise it on overflow of their calendar reconversion, and the
microseconds stage raises it exactly when the wrapping 64-bit sum lies
outside the valid timestamp range (which can let an actual overflow pass
undetected). -/
theorem timestamp_pl_interval_stages (span : Interval) (t : Int)
    (h : TIMESTAMP_NOT_FINITE t = false) :
    pg_timestamp_pl_interval t span =
      ((interval_pl_months span t).bind (interval_pl_days span)).bind
        (interval_pl_time span) ∧
    (∀ e, interval_pl_months span t = .error e → e = "timestamp out of range") ∧
    (∀ u e, interval_pl_days span u = .error e → e = "timestamp out of range") ∧
    (∀ u e, interval_pl_time span u = .error e → e = "timestamp out of range") ∧
    (span.month = 0 → interval_pl_months span t = .ok t) ∧
    (∀ u, span.day = 0 → interval_pl_days span u = .ok u) ∧
    (∀ u, interval_pl_time span u =
      if IS_VALID_TIMESTAMP (wrap64 (u + span.time)) then .ok (wrap64 (u + span.time))
      else .error "timestamp out of range") := by
  refine ⟨?_, ?_, ?_, ?_, ?_, ?_, ?_⟩
  · unfold pg_timestamp_pl_interval
    rw [h]
    simp only [Bool.false_eq_true, if_false]
    cases interval_pl_months span t with
    | error e => simp [Except.bind]
    | ok ts1 =>
      cases hd : interval_pl_days span ts1 with
      | error e => simp [Except.bind, hd]
      | ok ts2 => simp [Except.bind, hd]
  · intro e he
    unfold interval_pl_months at he
    simp only [] at he
    split at he
    · split at he
      · simp only [Except.error.injEq] at he
        exact he.symm
      · split at he
        · simp only [Except.error.injEq] at he
          exact he.symm
        · simp at he
    · simp at he
  · intro u e he
    unfold interval_pl_days at he
    simp only [] at he
    split at he
    · split at he
      · simp only [Except.error.injEq] at he
        exact he.symm
      · split at he
        · simp only [Except.error.injEq] at he
          exact he.symm
        · simp at he
    · simp at he
  · intro u e he
    unfold interval_pl_time at he
    simp only [] at he
    split at he
    · simp at he
    · simp only [Except.error.injEq] at he
      exact he.symm
  · intro hm
    unfold interval_pl_months
    simp [hm]
  · intro u hd
    unfold interval_pl_days
    simp [hd]
  · intro u
    rfl

theorem timestamp_pl_interval_stages_witness :
    TIMESTAMP_NOT_FINITE 0 = false ∧
    pg_timestamp_pl_interval 0 ⟨1, 1, 1⟩ =
      ((interval_pl_months ⟨1, 1, 1⟩ 0).bind (interval_pl_days ⟨1, 1, 1⟩)).bind
        (interval_pl_time ⟨1, 1, 1⟩) ∧
    pg_timestamp_pl_interval 0 ⟨1, 1, 1⟩ = .ok 2764800000001 :=
  ⟨by decide, (timestamp_pl_interval_stages ⟨1, 1, 1⟩ 0 (by decide)).1, by decide⟩

/-- The linear microsecond value of an interval exactly as the spec words
it: `(month * 30 + day) * 86400000000 + time`. -/
def intervalLinearValue (i : Interval) : Int :=
  (i.month * 30 + i.day) * 86400000000 + i.time

/-- `interval_cmp_value` computes `intervalLinearValue` exactly: none of
its intermediate 64-bit operations can wrap for in-range components. -/
theorem interval_cmp_value_eq_linear (i : Interval) (hv : i.valid) :
    interval_cmp_value i = intervalLinearValue i := by
  obtain ⟨hm, hd, ht⟩ := hv
  obtain ⟨hq, hr1, hr2⟩ := tdiv_tmod_split i.time (by decide : (0:Int) < USECS_PER_DAY)
  unfold int32Range at hm hd
  unfold int64Range at ht
  unfold USECS_PER_DAY at hq hr1 hr2
  set q := i.time.tdiv 86400000000 with hqdef
  set r := i.time.tmod 86400000000 with hrdef
  unfold interval_cmp_value intervalLinearValue USECS_PER_DAY
  simp only [wrap64, ← hqdef, ← hrdef]
  omega

/-- C4: `pg_interval_cmp` orders two intervals exactly as their linear
microsecond values `(month * 30 + day) * 86400000000 + time`, computed
without overflow; in particular one month (30 days) sorts strictly below
31 days. -/
theorem interval_cmp_spec :
    (∀ i1 i2 : Interval, i1.valid → i2.valid →
      pg_interval_cmp i1 i2 =
        int128_compare (intervalLinearValue i1) (intervalLinearValue i2)) ∧
    pg_interval_cmp ⟨1, 0, 0⟩ ⟨0, 31, 0⟩ = -1 ∧
    intervalLinearValue ⟨1, 0, 0⟩ < intervalLinearValue ⟨0, 31, 0⟩ := by
  refine ⟨?_, by decide, by decide⟩
  intro i1 i2 h1 h2
  unfold pg_interval_cmp
  rw [interval_cmp_value_eq_linear i1 h1, interval_cmp_value_eq_linear i2 h2]

theorem interval_cmp_spec_witness :
    (Interval.valid ⟨1, 0, 0⟩ ∧ Interval.valid ⟨0, 31, 0⟩) ∧
    pg_interval_cmp ⟨1, 0, 0⟩ ⟨0, 31, 0⟩ =
      int128_compare (intervalLinearValue ⟨1, 0, 0⟩) (intervalLinearValue ⟨0, 31, 0⟩) :=
  ⟨⟨by decide, by decide⟩, interval_cmp_spec.1 ⟨1, 0, 0⟩ ⟨0, 31, 0⟩ (by decide) (by decide)⟩

/-- Rounding to a multiple of `unit`, half away from zero, as the spec
describes the typmod adjustment of a timestamp. -/
def roundHalfAwayFromZero (x unit : Int) : Int :=
  x.sign * (((x.natAbs : Int) + unit / 2) / unit * unit)

/-- The rounding code of `AdjustTimestampForTypmodError` computes
half-away-from-zero rounding whenever the offset addition cannot wrap. -/
theorem adjust_code_eq_round (s off t : Int) (hs : 0 < s) (hoff : off = s / 2)
    (hb1 : t + off ≤ 9223372036854775807)
    (hb2 : -t + off ≤ 9223372036854775807) :
    (if t ≥ 0 then (wrap64 (t + off)).tdiv s * s
     else -((wrap64 (-t + off)).tdiv s * s)) = roundHalfAwayFromZero t s := by
  have hoff0 : 0 ≤ off := by subst hoff; omega
  have hoffs : off < s := by subst hoff; omega
  unfold roundHalfAwayFromZero
  split_ifs with ht
  · have hw : wrap64 (t + off) = t + off := wrap64_eq_self (by unfold int64Range; omega)
    rw [hw, Int.tdiv_eq_ediv (by omega) (Int.le_of_lt hs)]
    rcases eq_or_lt_of_le ht with hteq | htpos
    · subst hteq
      rw [Int.sign_zero, Int.zero_add, Int.ediv_eq_zero_of_lt hoff0 hoffs]
      ring
    · rw [Int.sign_eq_one_of_pos htpos, Int.natAbs_of_nonneg ht, hoff]
      ring
  · push_neg at ht
    have hw : wrap64 (-t + off) = -t + off := wrap64_eq_self (by unfold int64Range; omega)
    rw [hw, Int.tdiv_eq_ediv (by omega) (Int.le_of_lt hs),
      Int.sign_eq_neg_one_of_neg ht, Int.ofNat_natAbs_of_nonpos (Int.le_of_lt ht), hoff]
    ring

/-- C9 counterexample: on the finite timestamp `2^63 - 2` with precision
0, the offset addition `*time + 500000` wraps, and the function returns
`-9223372036854000000` instead of the half-away-from-zero rounding of the
input (which would be `9223372036855000000`, itself beyond `int64`). -/
theorem adjust_timestamp_typmod_wrap_cex :
    TIMESTAMP_NOT_FINITE 9223372036854775806 = false ∧
    AdjustTimestampForTypmod 9223372036854775806 0 = .ok (-9223372036854000000) ∧
    roundHalfAwayFromZero 9223372036854775806 (TimestampScales 0) = 9223372036855000000 ∧
    (-9223372036854000000 : Int) ≠ 9223372036855000000 := by
  refine ⟨by decide, by decide, by decide, by decide⟩

/-- C9 (amended): `AdjustTimestampForTypmod` leaves sentinels and the
typmod values `-1` and `6` unchanged; the scale for precision `p` is
`10^(6-p)` and the rounding offset is half the scale; for `0 <= p < 6` and
finite input the result is always a multiple of the scale, and adjusting
`-t` yields the negation of adjusting `t` whenever both are finite;
the result is the input rounded half away from zero to a multiple of
the scale whenever `|t|` plus the rounding offset does not exceed
`INT64_MAX` (in particular for every timestamp in the valid range) —
but not in general, since the offset addition can wrap. -/
theorem adjust_timestamp_typmod_spec :
    (∀ t p : Int, TIMESTAMP_NOT_FINITE t = true ∨ p = -1 ∨ p = 6 →
      AdjustTimestampForTypmod t p = .ok t) ∧
    (∀ p : Int, 0 ≤ p → p < 6 → TimestampScales p = 10 ^ (6 - p).toNat ∧
      TimestampOffsets p = TimestampScales p / 2) ∧
    (∀ t p : Int, TIMESTAMP_NOT_FINITE t = false → 0 ≤ p → p < 6 →
      ∃ v, AdjustTimestampForTypmod t p = .ok v ∧ TimestampScales p ∣ v) ∧
    (∀ t p : Int, TIMESTAMP_NOT_FINITE t = false → TIMESTAMP_NOT_FINITE (-t) = false →
      0 ≤ p → p < 6 →
      AdjustTimestampForTypmod (-t) p =
        (AdjustTimestampForTypmod t p).map (fun v => -v)) ∧
    (∀ t p : Int, TIMESTAMP_NOT_FINITE t = false → 0 ≤ p → p < 6 →
      |t| + TimestampOffsets p ≤ 9223372036854775807 →
      AdjustTimestampForTypmod t p =
        .ok (roundHalfAwayFromZero t (TimestampScales p))) := by
  refine ⟨?_, ?_, ?_, ?_, ?_⟩
  · intro t p h
    unfold AdjustTimestampForTypmod MAX_TIMESTAMP_PRECISION
    rw [if_neg]
    rintro ⟨h1, h2, h3⟩
    rcases h with h | h | h
    · exact h1 h
    · exact h2 h
    · exact h3 h
  · intro p hp0 hp6
    interval_cases p <;> exact ⟨by decide, by decide⟩
  · intro t p hf hp0 hp6
    unfold AdjustTimestampForTypmod MAX_TIMESTAMP_PRECISION
    rw [if_pos ⟨by simp [hf], by omega, show p ≠ (6:Int) by omega⟩,
      if_neg (show ¬(p < 0 ∨ p > (6:Int)) by omega)]
    split_ifs with ht
    · exact ⟨_, rfl, dvd_mul_left _ _⟩
    · exact ⟨_, rfl, dvd_neg.mpr (dvd_mul_left _ _)⟩
  · intro t p hf hfn hp0 hp6
    unfold AdjustTimestampForTypmod MAX_TIMESTAMP_PRECISION
    have hc1 : ¬ TIMESTAMP_NOT_FINITE t = true ∧ p ≠ -1 ∧ p ≠ (6:Int) :=
      ⟨by simp [hf], by omega, by omega⟩
    have hc2 : ¬ TIMESTAMP_NOT_FINITE (-t) = true ∧ p ≠ -1 ∧ p ≠ (6:Int) :=
      ⟨by simp [hfn], by omega, by omega⟩
    have hrange : ¬(p < 0 ∨ p > (6:Int)) := by omega
    rw [if_pos hc2, if_neg hrange, if_pos hc1, if_neg hrange]
    rcases lt_trichotomy t 0 with h | h | h
    · rw [if_pos (show -t ≥ 0 by omega), if_neg (show ¬(t ≥ 0) by omega)]
      simp [Except.map, neg_neg]
    · subst h
      interval_cases p <;> decide
    · rw [if_neg (show ¬(-t ≥ 0) by omega), if_pos (show t ≥ 0 by omega)]
      simp [Except.map, neg_neg]
  · intro t p hf hp0 hp6 hb
    have habs : -(9223372036854775807 - TimestampOffsets p) ≤ t ∧
        t ≤ 9223372036854775807 - TimestampOffsets p := by
      have h1 : |t| ≤ 9223372036854775807 - TimestampOffsets p := by linarith
      exact abs_le.mp h1
    unfold AdjustTimestampForTypmod MAX_TIMESTAMP_PRECISION
    rw [if_pos ⟨by simp [hf], by omega, show p ≠ (6:Int) by omega⟩,
      if_neg (show ¬(p < 0 ∨ p > (6:Int)) by omega)]
    rw [← apply_ite Except.ok]
    congr 1
    have hs : 0 < TimestampScales p := by interval_cases p <;> decide
    have hoff : TimestampOffsets p = TimestampScales p / 2 := by
      interval_cases p <;> decide
    exact adjust_code_eq_round _ _ _ hs hoff (by omega) (by omega)

theorem adjust_timestamp_typmod_spec_witness :
    AdjustTimestampForTypmod 123456 (-1) = .ok 123456 ∧
    AdjustTimestampForTypmod (-1500000) 3 =
      (AdjustTimestampForTypmod 1500000 3).map (fun v => -v) ∧
    AdjustTimestampForTypmod 1500000 0 =
      .ok (roundHalfAwayFromZero 1500000 (TimestampScales 0)) :=
  ⟨adjust_timestamp_typmod_spec.1 123456 (-1) (Or.inr (Or.inl rfl)),
   adjust_timestamp_typmod_spec.2.2.2.1 1500000 3 (by decide) (by decide)
     (by decide) (by decide),
   adjust_timestamp_typmod_spec.2.2.2.2 1500000 0 (by decide) (by decide)
     (by decide) (by decide)⟩

theorem timestamp_mi_spec_witness :
    ∃ r, pg_timestamp_mi 86400000001 0 = .ok r ∧
      r.month = 0 ∧
      r.day * USECS_PER_DAY + r.time = wrap64 (86400000001 - 0) ∧
      -USECS_PER_DAY < r.time ∧ r.time < USECS_PER_DAY ∧
      ¬(r.day > 0 ∧ r.time < 0) ∧ ¬(r.day < 0 ∧ r.time > 0) :=
  timestamp_mi_spec 86400000001 0 (by decide) (by decide)

end PgCall

namespace PgCall

/-- C10: when `val` fits in 32 bits the xor-folding of `pg_hashint8` is
the identity on the low 32 bits of `val` (a nonnegative value has a zero
high half, a negative value an all-ones high half whose complement is
zero), so the 64-bit integer hash is the 32-bit hash of the low word;
`pg_hashint8extended` folds identically for its seeded variant. -/
theorem hashint8_folds_identity :
    (∀ val : Int, int32Range val →
      pg_hashint8 val = hash_bytes_uint32 ((val.emod 4294967296).toNat)) ∧
    (∀ (val : Int) (seed : Nat), int32Range val →
      pg_hashint8extended val seed =
        hash_bytes_uint32_extended ((val.emod 4294967296).toNat) seed) := by
  have hihalf_pos : ∀ val : Int, 0 ≤ val → val ≤ 2147483647 →
      ((val.ediv 4294967296).emod 4294967296).toNat = 0 := by
    intro val h0 h1
    have h2 : val.ediv 4294967296 = 0 := Int.ediv_eq_zero_of_lt h0 (by omega)
    rw [h2]
    decide
  have hihalf_neg : ∀ val : Int, -2147483648 ≤ val → val < 0 →
      ((val.ediv 4294967296).emod 4294967296).toNat = 4294967295 := by
    intro val h0 h1
    have h2 : val.ediv 4294967296 = -1 := by
      show val / 4294967296 = -1
      omega
    rw [h2]
    decide
  constructor
  · intro val hv
    unfold int32Range at hv
    simp only [pg_hashint8]
    by_cases h : val ≥ 0
    · rw [if_pos h, hihalf_pos val h (by omega), Nat.xor_zero]
    · rw [if_neg h, hihalf_neg val (by omega) (by omega)]
      norm_num
  · intro val seed hv
    unfold int32Range at hv
    simp only [pg_hashint8extended]
    by_cases h : val ≥ 0
    · rw [if_pos h, hihalf_pos val h (by omega), Nat.xor_zero]
    · rw [if_neg h, hihalf_neg val (by omega) (by omega)]
      norm_num

theorem hashint8_folds_identity_witness :
    (int32Range (-5) ∧
      pg_hashint8 (-5) = hash_bytes_uint32 (((-5 : Int).emod 4294967296).toNat)) ∧
    pg_hashint8extended (-5) 7 =
      hash_bytes_uint32_extended (((-5 : Int).emod 4294967296).toNat) 7 :=
  ⟨⟨by decide, hashint8_folds_identity.1 (-5) (by decide)⟩,
    hashint8_folds_identity.2 (-5) 7 (by decide)⟩

end PgCall

namespace PgCall

theorem f8magOf_normal_ge {e f : Nat} (he : e ≠ 0) : 2 ^ 52 ≤ f8magOf e f := by
  unfold f8magOf
  rw [if_neg he]
  calc (2:Nat) ^ 52 ≤ 2 ^ 52 + f := Nat.le_add_right _ _
    _ = (2 ^ 52 + f) * 1 := (Nat.mul_one _).symm
    _ ≤ (2 ^ 52 + f) * 2 ^ (e - 1) :=
        Nat.mul_le_mul_left _ (Nat.one_le_two_pow)

/-- Distinct exponent/fraction fields encode distinct magnitudes: the
binary64 representation of a finite nonzero magnitude is unique. -/
theorem f8magOf_inj {e1 f1 e2 f2 : Nat} (hf1 : f1 < 2 ^ 52) (hf2 : f2 < 2 ^ 52)
    (h : f8magOf e1 f1 = f8magOf e2 f2) : e1 = e2 ∧ f1 = f2 := by
  have key : ∀ a b c d : Nat, b < 2 ^ 52 → d < 2 ^ 52 → a ≠ 0 → c ≠ 0 → a < c →
      (2 ^ 52 + b) * 2 ^ (a - 1) < (2 ^ 52 + d) * 2 ^ (c - 1) := by
    intro a b c d hb hd ha hc hlt
    calc (2 ^ 52 + b) * 2 ^ (a - 1) < 2 ^ 53 * 2 ^ (a - 1) := by
          apply mul_lt_mul_of_pos_right _ (pow_pos (by norm_num) _)
          have : (2:Nat) ^ 53 = 2 ^ 52 + 2 ^ 52 := by norm_num
          omega
      _ = 2 ^ (53 + (a - 1)) := by rw [← pow_add]
      _ ≤ 2 ^ (52 + (c - 1)) := Nat.pow_le_pow_right (by norm_num) (by omega)
      _ = 2 ^ 52 * 2 ^ (c - 1) := by rw [← pow_add]
      _ ≤ (2 ^ 52 + d) * 2 ^ (c - 1) :=
          Nat.mul_le_mul_right _ (Nat.le_add_right _ _)
  by_cases h1 : e1 = 0 <;> by_cases h2 : e2 = 0
  · subst h1
    subst h2
    unfold f8magOf at h
    simp at h
    exact ⟨rfl, h⟩
  · exfalso
    have hge := f8magOf_normal_ge (e := e2) (f := f2) h2
    unfold f8magOf at h
    rw [if_pos h1, if_neg h2] at h
    unfold f8magOf at hge
    rw [if_neg h2] at hge
    omega
  · exfalso
    have hge := f8magOf_normal_ge (e := e1) (f := f1) h1
    unfold f8magOf at h
    rw [if_neg h1, if_pos h2] at h
    unfold f8magOf at hge
    rw [if_neg h1] at hge
    omega
  · unfold f8magOf at h
    rw [if_neg h1, if_neg h2] at h
    have he : e1 = e2 := by
      rcases lt_trichotomy e1 e2 with hlt | heq | hgt
      · exact absurd h (Nat.ne_of_lt (key e1 f1 e2 f2 hf1 hf2 h1 h2 hlt))
      · exact heq
      · exact absurd h.symm (Nat.ne_of_lt (key e2 f2 e1 f1 hf2 hf1 h2 h1 hgt))
    subst he
    have hpos : 0 < 2 ^ (e1 - 1) := pow_pos (by norm_num) _
    have hff := Nat.eq_of_mul_eq_mul_right hpos h
    exact ⟨rfl, by omega⟩

/-- A binary64 bit pattern splits uniquely into its sign, exponent and
fraction fields. -/
theorem f8_decomp (b : Nat) (hb : b < 2 ^ 64) :
    b = f8sign b * 2 ^ 63 + f8exp b * 2 ^ 52 + f8frac b ∧
    f8sign b < 2 ∧ f8exp b < 2048 ∧ f8frac b < 2 ^ 52 := by
  unfold f8sign f8exp f8frac
  simp only [show (2:Nat) ^ 63 = 9223372036854775808 by norm_num,
    show (2:Nat) ^ 52 = 4503599627370496 by norm_num,
    show (2:Nat) ^ 64 = 18446744073709551616 by norm_num] at *
  omega

/-- Two non-NaN bit patterns with the same nonzero IEEE value are the
same bit pattern. -/
theorem f8val_finite_inj {a b : Nat} (ha : a < 2 ^ 64) (hb : b < 2 ^ 64)
    (hna : float8_isnan a = false) (hnb : float8_isnan b = false)
    (hv : f8val a = f8val b) (hnz : f8val a ≠ .finite 0) : a = b := by
  obtain ⟨da, hsa, hea, hfa⟩ := f8_decomp a ha
  obtain ⟨db, hsb, heb, hfb⟩ := f8_decomp b hb
  have hna2 : f8exp a = 2047 → f8frac a = 0 := by
    intro h
    by_contra hc
    have : float8_isnan a = true := by
      unfold float8_isnan
      simp [h, hc]
    rw [this] at hna
    exact absurd hna (by simp)
  have hnb2 : f8exp b = 2047 → f8frac b = 0 := by
    intro h
    by_contra hc
    have : float8_isnan b = true := by
      unfold float8_isnan
      simp [h, hc]
    rw [this] at hnb
    exact absurd hnb (by simp)
  unfold f8val at hv hnz
  by_cases h1 : f8exp a = 2047 <;> by_cases h2 : f8exp b = 2047
  · have hfa0 := hna2 h1
    have hfb0 := hnb2 h2
    rw [if_pos h1, if_pos h2, if_pos hfa0, if_pos hfb0] at hv
    have hsign : f8sign a = f8sign b := by
      by_cases s1 : f8sign a = 1 <;> by_cases s2 : f8sign b = 1 <;>
        simp [s1, s2] at hv ⊢ <;> omega
    omega
  · exfalso
    have hfa0 := hna2 h1
    rw [if_pos h1, if_neg h2, if_pos hfa0] at hv
    split_ifs at hv <;> simp at hv
  · exfalso
    have hfb0 := hnb2 h2
    rw [if_neg h1, if_pos h2, if_pos hfb0] at hv
    split_ifs at hv <;> simp at hv
  · rw [if_neg h1, if_neg h2] at hv
    rw [if_neg h1] at hnz
    simp only [F8Val.finite.injEq] at hv
    have hmagnz : f8mag a ≠ 0 := by
      intro h0
      apply hnz
      rw [h0]
      simp
    have hmag : f8mag a = f8mag b ∧ f8sign a = f8sign b := by
      by_cases s1 : f8sign a = 1 <;> by_cases s2 : f8sign b = 1
      · rw [if_pos s1, if_pos s2] at hv
        exact ⟨by omega, s1.trans s2.symm⟩
      · rw [if_pos s1, if_neg s2] at hv
        exact absurd (by omega : f8mag a = 0) hmagnz
      · rw [if_neg s1, if_pos s2] at hv
        exact absurd (by omega : f8mag a = 0) hmagnz
      · rw [if_neg s1, if_neg s2] at hv
        exact ⟨by omega, by omega⟩
    obtain ⟨hmag1, hsign⟩ := hmag
    unfold f8mag at hmag1
    obtain ⟨hee, hff⟩ := f8magOf_inj hfa hfb hmag1
    omega

end PgCall

namespace PgCall

/-- C8: two float8 bit patterns that are equal by IEEE value comparison
(in particular `-0.0` and `0.0`) or are both NaN (under any NaN bit
patterns) hash identically under `pg_hashfloat8`, whatever byte-hash
function stands for `hash_any`: zeros short-circuit to hash `0` and NaNs
are normalized to the one canonical NaN before hashing. -/
theorem hashfloat8_value_eq (hashAny : Nat → Nat) (a b : Nat)
    (ha : a < 2 ^ 64) (hb : b < 2 ^ 64)
    (h : float8_value_eq a b ∨ (float8_isnan a = true ∧ float8_isnan b = true)) :
    pg_hashfloat8 hashAny a = pg_hashfloat8 hashAny b := by
  unfold pg_hashfloat8
  rcases h with ⟨hna, hnb, hv⟩ | ⟨hna, hnb⟩
  · by_cases hz : f8val a = .finite 0
    · rw [if_pos hz, if_pos (hv ▸ hz)]
    · have hzb : f8val b ≠ .finite 0 := fun hc => hz (hv.trans hc)
      rw [if_neg hz, if_neg (show ¬(float8_isnan a = true) by simp [hna]),
        if_neg hzb, if_neg (show ¬(float8_isnan b = true) by simp [hnb]),
        f8val_finite_inj ha hb hna hnb hv hz]
  · have hza : f8val a ≠ .finite 0 := by
      unfold float8_isnan at hna
      simp only [Bool.and_eq_true, decide_eq_true_eq] at hna
      unfold f8val
      rw [if_pos hna.1, if_neg hna.2]
      simp
    have hzb : f8val b ≠ .finite 0 := by
      unfold float8_isnan at hnb
      simp only [Bool.and_eq_true, decide_eq_true_eq] at hnb
      unfold f8val
      rw [if_pos hnb.1, if_neg hnb.2]
      simp
    rw [if_neg hza, if_neg hzb, if_pos hna, if_pos hnb]

theorem hashfloat8_value_eq_witness :
    ((9223372036854775808 : Nat) < 2 ^ 64 ∧ (0 : Nat) < 2 ^ 64 ∧
      float8_value_eq 9223372036854775808 0) ∧
    pg_hashfloat8 id 9223372036854775808 = pg_hashfloat8 id 0 :=
  ⟨⟨by decide, by decide, by decide⟩,
    hashfloat8_value_eq id 9223372036854775808 0 (by decide) (by decide)
      (Or.inl (by decide))⟩

end PgCall
